import Mathlib

/-!
Vehicle tracker: playback state machine and progress readout

A shallow embedding of the playback logic of `src/components/VehicleMap.jsx`
(the three pieces of component state `currentIndex`, `isPlaying`,
`simulationSpeed`, the four handlers and the movement effect), of the buttons
of `src/components/Controls.jsx` through which the handlers are called, and of
the `progress` value computed there.

JavaScript numbers that hold array lengths and indices are integers here
(`routeData.length - 1` is `-1` for the empty array, so `Int`, not `Nat`);
an array length is below 2^32, far inside the range where doubles hold
integers exactly. The arithmetic of `progress` is double arithmetic: a finite
result is the exact rational result rounded to the nearest number with a
53-bit significand, ties to even, and a division by zero gives NaN or an
infinity. The exponent range of doubles (overflow, subnormals) and the sign
of zero are not modelled.
-/

namespace VehicleTracker

/-- One formatted route point, as built by the loader (VehicleMap.jsx, lines 55-59). -/
structure Sample where
  lat : ℚ
  lng : ℚ
  timestamp : Int
deriving DecidableEq

/-- The playback part of the state of the VehicleMap component
(the useState cells of lines 39, 40 and 43). -/
structure PlaybackState where
  currentIndex : Int
  isPlaying : Bool
  simulationSpeed : Int
deriving DecidableEq

/-- Initial values of the three state cells: 0, false, 2000. -/
def initialState : PlaybackState :=
  { currentIndex := 0, isPlaying := false, simulationSpeed := 2000 }

/-- The handler of lines 88-91: the index goes back to 0 when it is at or
past `routeData.length - 1`, then the playing flag is set. -/
def handlePlay (routeData : List Sample) (s : PlaybackState) : PlaybackState :=
  let s1 := if s.currentIndex ≥ (routeData.length : Int) - 1 then { s with currentIndex := 0 } else s
  { s1 with isPlaying := true }

/-- The handler of line 92. -/
def handlePause (s : PlaybackState) : PlaybackState :=
  { s with isPlaying := false }

/-- The handler of lines 93-96. -/
def handleReset (s : PlaybackState) : PlaybackState :=
  let s1 := { s with isPlaying := false }
  { s1 with currentIndex := 0 }

/-- The handler of line 97. -/
def handleSpeedChange (speed : Int) (s : PlaybackState) : PlaybackState :=
  { s with simulationSpeed := speed }

/-- Guard of the movement effect (line 74). The effect runs again after every
change of its dependencies, clearing the previous interval first (line 85), so
an interval is running exactly in the states where this guard holds. -/
def intervalScheduled (routeData : List Sample) (s : PlaybackState) : Bool :=
  s.isPlaying && decide (routeData.length > 1) &&
    decide (s.currentIndex < (routeData.length : Int) - 1)

/-- The updater handed to setCurrentIndex by the interval callback (lines 76-82). -/
def advanceIndex (routeData : List Sample) (i : Int) : Int :=
  if i ≥ (routeData.length : Int) - 1 then i else i + 1

/-- One firing of the timer: the interval callback runs when an interval is
scheduled, and nothing happens otherwise. -/
def tick (routeData : List Sample) (s : PlaybackState) : PlaybackState :=
  if intervalScheduled routeData s then
    { s with currentIndex := advanceIndex routeData s.currentIndex }
  else s

/-- The `disabled` attribute of the Start button (Controls.jsx, line 85). -/
def startDisabled (routeData : List Sample) (currentIndex : Int) : Bool :=
  decide (currentIndex ≥ (routeData.length : Int) - 1)

/-- The events that can change the playback state. -/
inductive Command where
  | play
  | pause
  | reset
  | setRate (rateMs : Int)
  | tick
deriving DecidableEq

/-- Effect of one event on the playback state. -/
def step (routeData : List Sample) (s : PlaybackState) : Command → PlaybackState
  | .play => handlePlay routeData s
  | .pause => handlePause s
  | .reset => handleReset s
  | .setRate r => handleSpeedChange r s
  | .tick => tick routeData s

/-- Effect of a finite sequence of events, applied left to right. -/
def run (routeData : List Sample) (s : PlaybackState) (cmds : List Command) : PlaybackState :=
  cmds.foldl (step routeData) s

/-- A click on the Start button (Controls.jsx, lines 80-88). The button is
rendered only while not playing, its onClick is the play handler (onPlay, wired
at VehicleMap.jsx line 208), and a disabled button delivers no click. -/
def clickStart (routeData : List Sample) (s : PlaybackState) : PlaybackState :=
  if !s.isPlaying && !startDisabled routeData s.currentIndex then handlePlay routeData s
  else s

/-- A click on the Pause button (Controls.jsx, lines 89-97), which is rendered
only while playing; its onClick is the pause handler. -/
def clickPause (s : PlaybackState) : PlaybackState :=
  if s.isPlaying then handlePause s else s

/-- Effect of one event as the control surface of Controls.jsx delivers it:
play and pause go through the Start and Pause buttons, reset through the Reset
button (lines 99-105, never disabled), the rate through the range input
(lines 113-121), and a tick comes from the timer. -/
def controlStep (routeData : List Sample) (s : PlaybackState) : Command → PlaybackState
  | .play => clickStart routeData s
  | .pause => clickPause s
  | .reset => handleReset s
  | .setRate r => handleSpeedChange r s
  | .tick => tick routeData s

/-- A two-point route used in the examples. -/
def twoPointRoute : List Sample :=
  [{ lat := 17, lng := 78, timestamp := 0 },
   { lat := 17001 / 1000, lng := 78001 / 1000, timestamp := 60000 }]

/-- A one-point route used in the examples. -/
def onePointRoute : List Sample :=
  [{ lat := 17, lng := 78, timestamp := 0 }]

/-- Nearest integer, a tie going to the even neighbour. -/
def roundHalfEven (x : ℚ) : ℤ :=
  let f := ⌊x⌋
  let d := x - f
  if d < 1 / 2 then f
  else if 1 / 2 < d then f + 1
  else if f % 2 = 0 then f else f + 1

/-- Rounding of a rational to the nearest number with a 53-bit significand,
ties to even: the rounding applied to every finite result of double arithmetic. -/
def roundDouble (x : ℚ) : ℚ :=
  if x = 0 then 0
  else
    let e := Int.log 2 |x|
    let ulp : ℚ := 2 ^ (e - 52)
    let m : ℚ := roundHalfEven (|x| / ulp)
    if x < 0 then -(m * ulp) else m * ulp

/-- Half the gap between 1 and the next double: the relative error bound of one rounding. -/
def unitRoundoff : ℚ := 1 / 2 ^ 53

/-- A JavaScript number: a finite value, NaN, or one of the two infinities. -/
inductive JSNumber where
  | finite (q : ℚ)
  | nan
  | posInfinity
  | negInfinity
deriving DecidableEq

/-- The `/` operator on numbers. A zero divisor gives NaN for a zero dividend
and an infinity otherwise; nothing is thrown. -/
def JSNumber.div : JSNumber → JSNumber → JSNumber
  | .finite a, .finite b =>
      if b = 0 then
        if a = 0 then .nan else if 0 < a then .posInfinity else .negInfinity
      else .finite (roundDouble (a / b))
  | .finite _, .posInfinity => .finite 0
  | .finite _, .negInfinity => .finite 0
  | .posInfinity, .finite b => if 0 ≤ b then .posInfinity else .negInfinity
  | .negInfinity, .finite b => if 0 ≤ b then .negInfinity else .posInfinity
  | _, _ => .nan

/-- The `*` operator on numbers. -/
def JSNumber.mul : JSNumber → JSNumber → JSNumber
  | .finite a, .finite b => .finite (roundDouble (a * b))
  | .finite a, .posInfinity =>
      if a = 0 then .nan else if 0 < a then .posInfinity else .negInfinity
  | .finite a, .negInfinity =>
      if a = 0 then .nan else if 0 < a then .negInfinity else .posInfinity
  | .posInfinity, .finite b =>
      if b = 0 then .nan else if 0 < b then .posInfinity else .negInfinity
  | .negInfinity, .finite b =>
      if b = 0 then .nan else if 0 < b then .negInfinity else .posInfinity
  | .posInfinity, .posInfinity => .posInfinity
  | .posInfinity, .negInfinity => .negInfinity
  | .negInfinity, .posInfinity => .negInfinity
  | .negInfinity, .negInfinity => .posInfinity
  | _, _ => .nan

/-- The number `(currentIndex / (routeData.length - 1)) * 100` of Controls.jsx,
line 22, before toFixed is applied to it. -/
def progressPercent (currentIndex : Int) (routeData : List Sample) : JSNumber :=
  ((JSNumber.finite currentIndex).div (.finite ((routeData.length : Int) - 1))).mul (.finite 100)

/-- What the constant `progress` of Controls.jsx can hold: the string that
toFixed(1) makes of a number (kept as that number), or a plain number. -/
inductive ProgressValue where
  | toFixed1 (x : JSNumber)
  | number (x : JSNumber)
deriving DecidableEq

/-- The constant `progress` of Controls.jsx, lines 20-23. -/
def progress (currentIndex : Int) (routeData : List Sample) : ProgressValue :=
  if routeData.length > 0 then .toFixed1 (progressPercent currentIndex routeData)
  else .number (.finite 0)

/-! Rounding lemmas -/

theorem floor_le_roundHalfEven (x : ℚ) : ⌊x⌋ ≤ roundHalfEven x := by
  unfold roundHalfEven
  simp only
  split_ifs <;> omega

theorem roundHalfEven_le_floor_add_one (x : ℚ) : roundHalfEven x ≤ ⌊x⌋ + 1 := by
  unfold roundHalfEven
  simp only
  split_ifs <;> omega

theorem roundHalfEven_intCast (n : ℤ) : roundHalfEven (n : ℚ) = n := by
  unfold roundHalfEven
  simp

theorem roundHalfEven_mono {x y : ℚ} (h : x ≤ y) : roundHalfEven x ≤ roundHalfEven y := by
  have hf : ⌊x⌋ ≤ ⌊y⌋ := Int.floor_mono h
  rcases hf.lt_or_eq with hlt | heq
  · calc roundHalfEven x ≤ ⌊x⌋ + 1 := roundHalfEven_le_floor_add_one x
      _ ≤ ⌊y⌋ := hlt
      _ ≤ roundHalfEven y := floor_le_roundHalfEven y
  · unfold roundHalfEven
    simp only
    rw [heq]
    have hd : x - (⌊y⌋ : ℚ) ≤ y - (⌊y⌋ : ℚ) := by linarith
    split_ifs <;> first | omega | (exfalso; linarith)


theorem log_two_eq {x : ℚ} {k : ℤ} (hx : 0 < x) (hlo : (2 : ℚ) ^ k ≤ x) (hhi : x < (2 : ℚ) ^ (k + 1)) :
    Int.log 2 x = k := by
  have h1 : k ≤ Int.log 2 x := by
    have := (Int.zpow_le_iff_le_log (b := 2) (by norm_num) hx (x := k)).1 (by exact_mod_cast hlo)
    exact this
  have h2 : Int.log 2 x < k + 1 := by
    have := (Int.lt_zpow_iff_log_lt (b := 2) (by norm_num) hx (x := k + 1)).1 (by exact_mod_cast hhi)
    exact this
  omega

theorem roundDouble_zero : roundDouble 0 = 0 := by
  simp [roundDouble]

theorem roundDouble_pos_eq {x : ℚ} (hx : 0 < x) :
    roundDouble x =
      (roundHalfEven (x / 2 ^ (Int.log 2 x - 52)) : ℚ) * 2 ^ (Int.log 2 x - 52) := by
  unfold roundDouble
  simp only [hx.ne', if_false, abs_of_pos hx, not_lt.mpr hx.le]

theorem roundDouble_one : roundDouble 1 = 1 := by
  rw [roundDouble_pos_eq one_pos, Int.log_one_right]
  have h : (1 : ℚ) / 2 ^ ((0 : ℤ) - 52) = ((2 ^ 52 : ℤ) : ℚ) := by
    norm_num [zpow_neg]
  rw [h, roundHalfEven_intCast]
  norm_num [zpow_neg]

theorem roundDouble_hundred : roundDouble 100 = 100 := by
  have hl : Int.log 2 (100 : ℚ) = 6 := log_two_eq (by norm_num) (by norm_num) (by norm_num)
  rw [roundDouble_pos_eq (by norm_num), hl]
  have h : (100 : ℚ) / 2 ^ ((6 : ℤ) - 52) = ((100 * 2 ^ 46 : ℤ) : ℚ) := by
    norm_num [zpow_neg]
  rw [h, roundHalfEven_intCast]
  norm_num [zpow_neg]


theorem two_pow_mul_ulp (e : ℤ) : (((2 : ℤ) ^ 52 : ℤ) : ℚ) * 2 ^ (e - 52) = 2 ^ e := by
  have h : (2 : ℚ) ^ (e - 52) = 2 ^ e / 2 ^ (52 : ℤ) := zpow_sub₀ (by norm_num) e 52
  rw [h]
  push_cast
  field_simp
  norm_num
  ring

theorem two_pow_succ_mul_ulp (e : ℤ) :
    (((2 : ℤ) ^ 53 : ℤ) : ℚ) * 2 ^ (e - 52) = 2 ^ (e + 1) := by
  have h : (2 : ℚ) ^ (e - 52) = 2 ^ e / 2 ^ (52 : ℤ) := zpow_sub₀ (by norm_num) e 52
  have h1 : (2 : ℚ) ^ (e + 1) = 2 ^ e * 2 := by
    rw [zpow_add₀ (by norm_num), zpow_one]
  rw [h, h1]
  push_cast
  field_simp
  ring

theorem zpow_le_roundDouble {x : ℚ} (hx : 0 < x) : (2 : ℚ) ^ Int.log 2 x ≤ roundDouble x := by
  rw [roundDouble_pos_eq hx]
  set e := Int.log 2 x with he
  have hu : (0 : ℚ) < 2 ^ (e - 52) := by positivity
  have hlo : (2 : ℚ) ^ e ≤ x := by
    have := Int.zpow_log_le_self (b := 2) (by norm_num) hx
    simpa using this
  have h52 : (((2 : ℤ) ^ 52 : ℤ) : ℚ) ≤ x / 2 ^ (e - 52) := by
    rw [le_div_iff₀ hu]
    calc (((2 : ℤ) ^ 52 : ℤ) : ℚ) * 2 ^ (e - 52) = 2 ^ e := by
          exact two_pow_mul_ulp e
      _ ≤ x := hlo
  have hm := roundHalfEven_mono h52
  rw [roundHalfEven_intCast] at hm
  have hm2 : (((2 : ℤ) ^ 52 : ℤ) : ℚ) ≤ (roundHalfEven (x / 2 ^ (e - 52)) : ℚ) := by exact_mod_cast hm
  calc (2 : ℚ) ^ e = (((2 : ℤ) ^ 52 : ℤ) : ℚ) * 2 ^ (e - 52) := by
          exact (two_pow_mul_ulp e).symm
    _ ≤ _ := by gcongr

theorem roundDouble_le_zpow {x : ℚ} (hx : 0 < x) : roundDouble x ≤ (2 : ℚ) ^ (Int.log 2 x + 1) := by
  rw [roundDouble_pos_eq hx]
  set e := Int.log 2 x with he
  have hu : (0 : ℚ) < 2 ^ (e - 52) := by positivity
  have hhi : x < (2 : ℚ) ^ (e + 1) := by
    have := Int.lt_zpow_succ_log_self (b := 2) (by norm_num) x
    simpa using this
  have hpow : (((2 : ℤ) ^ 53 : ℤ) : ℚ) * 2 ^ (e - 52) = 2 ^ (e + 1) := by
    exact two_pow_succ_mul_ulp e
  have h53 : x / 2 ^ (e - 52) ≤ (((2 : ℤ) ^ 53 : ℤ) : ℚ) := by
    rw [div_le_iff₀ hu, hpow]
    exact hhi.le
  have hm := roundHalfEven_mono h53
  rw [roundHalfEven_intCast] at hm
  have hm2 : (roundHalfEven (x / 2 ^ (e - 52)) : ℚ) ≤ (((2 : ℤ) ^ 53 : ℤ) : ℚ) := by exact_mod_cast hm
  calc _ ≤ (((2 : ℤ) ^ 53 : ℤ) : ℚ) * 2 ^ (e - 52) := by gcongr
    _ = _ := hpow

theorem roundDouble_nonneg {x : ℚ} (hx : 0 ≤ x) : 0 ≤ roundDouble x := by
  rcases hx.lt_or_eq with h | h
  · exact le_trans (by positivity) (zpow_le_roundDouble h)
  · rw [← h, roundDouble_zero]

theorem roundDouble_mono {x y : ℚ} (hx : 0 ≤ x) (hxy : x ≤ y) : roundDouble x ≤ roundDouble y := by
  rcases hx.lt_or_eq with hpos | h0
  · have hy : 0 < y := lt_of_lt_of_le hpos hxy
    have hlog : Int.log 2 x ≤ Int.log 2 y := Int.log_mono_right hpos hxy
    rcases hlog.lt_or_eq with hlt | heq
    · calc roundDouble x ≤ (2 : ℚ) ^ (Int.log 2 x + 1) := roundDouble_le_zpow hpos
        _ ≤ (2 : ℚ) ^ Int.log 2 y := zpow_le_zpow_right₀ (by norm_num) (by omega)
        _ ≤ roundDouble y := zpow_le_roundDouble hy
    · rw [roundDouble_pos_eq hpos, roundDouble_pos_eq hy, heq]
      have hu : (0 : ℚ) < 2 ^ (Int.log 2 y - 52) := by positivity
      have hq : x / 2 ^ (Int.log 2 y - 52) ≤ y / 2 ^ (Int.log 2 y - 52) := by gcongr
      have hm := roundHalfEven_mono hq
      have hm2 : (roundHalfEven (x / 2 ^ (Int.log 2 y - 52)) : ℚ) ≤
          (roundHalfEven (y / 2 ^ (Int.log 2 y - 52)) : ℚ) := by exact_mod_cast hm
      gcongr
  · rw [← h0, roundDouble_zero]
    exact roundDouble_nonneg (le_trans hx hxy)



theorem abs_roundHalfEven_sub_le (x : ℚ) : |(roundHalfEven x : ℚ) - x| ≤ 1 / 2 := by
  have h1 : (⌊x⌋ : ℚ) ≤ x := Int.floor_le x
  have h2 : x < (⌊x⌋ : ℚ) + 1 := Int.lt_floor_add_one x
  unfold roundHalfEven
  simp only
  rw [abs_le]
  split_ifs <;> push_cast <;> constructor <;> linarith

theorem abs_roundDouble_sub_le {x : ℚ} (hx : 0 ≤ x) :
    |roundDouble x - x| ≤ x * unitRoundoff := by
  rcases hx.lt_or_eq with hpos | h0
  · rw [roundDouble_pos_eq hpos]
    set e := Int.log 2 x with he
    have hu : (0 : ℚ) < 2 ^ (e - 52) := by positivity
    have hlo : (2 : ℚ) ^ e ≤ x := by
      have := Int.zpow_log_le_self (b := 2) (by norm_num) hpos
      simpa using this
    have herr := abs_roundHalfEven_sub_le (x / 2 ^ (e - 52))
    have hfac : (roundHalfEven (x / 2 ^ (e - 52)) : ℚ) * 2 ^ (e - 52) - x =
        ((roundHalfEven (x / 2 ^ (e - 52)) : ℚ) - x / 2 ^ (e - 52)) * 2 ^ (e - 52) := by
      field_simp
    rw [hfac, abs_mul, abs_of_pos hu]
    have hulp : (2 : ℚ) ^ (e - 52) = 2 ^ e * (2 * unitRoundoff) := by
      have h := two_pow_mul_ulp e
      unfold unitRoundoff
      rw [← h]
      push_cast
      ring
    calc |(roundHalfEven (x / 2 ^ (e - 52)) : ℚ) - x / 2 ^ (e - 52)| * 2 ^ (e - 52)
        ≤ 1 / 2 * 2 ^ (e - 52) := by gcongr
      _ = 2 ^ e * unitRoundoff := by rw [hulp]; ring
      _ ≤ x * unitRoundoff := by
          have : (0 : ℚ) ≤ unitRoundoff := by unfold unitRoundoff; positivity
          gcongr
  · rw [← h0, roundDouble_zero]
    simp

/-! The progress readout -/

theorem percent_nonneg {x : ℚ} (hx : 0 ≤ x) : 0 ≤ roundDouble (roundDouble x * 100) :=
  roundDouble_nonneg (mul_nonneg (roundDouble_nonneg hx) (by norm_num))

theorem percent_mono {x y : ℚ} (hx : 0 ≤ x) (hxy : x ≤ y) :
    roundDouble (roundDouble x * 100) ≤ roundDouble (roundDouble y * 100) := by
  apply roundDouble_mono (mul_nonneg (roundDouble_nonneg hx) (by norm_num))
  have := roundDouble_mono hx hxy
  linarith

theorem percent_one : roundDouble (roundDouble 1 * 100) = 100 := by
  rw [roundDouble_one, one_mul, roundDouble_hundred]

theorem percent_zero : roundDouble (roundDouble 0 * 100) = 0 := by
  rw [roundDouble_zero, zero_mul, roundDouble_zero]

theorem percent_error {x : ℚ} (hx : 0 ≤ x) :
    |roundDouble (roundDouble x * 100) - x * 100| ≤
      x * 100 * (2 * unitRoundoff + unitRoundoff ^ 2) := by
  have ha0 : 0 ≤ roundDouble x := roundDouble_nonneg hx
  have h1 := abs_roundDouble_sub_le hx
  have h2 := abs_roundDouble_sub_le (mul_nonneg ha0 (by norm_num : (0 : ℚ) ≤ 100))
  have hu : (0 : ℚ) ≤ unitRoundoff := by unfold unitRoundoff; positivity
  rw [abs_le] at h1 h2 ⊢
  have hau : roundDouble x * unitRoundoff ≤ (x + x * unitRoundoff) * unitRoundoff :=
    mul_le_mul_of_nonneg_right (by linarith) hu
  constructor <;> nlinarith

theorem progressPercent_eq {routeData : List Sample} (hN : 1 < routeData.length) (c : Int) :
    progressPercent c routeData =
      .finite (roundDouble (roundDouble ((c : ℚ) / ((routeData.length : ℚ) - 1)) * 100)) := by
  have hb : (routeData.length : ℚ) - 1 ≠ 0 := by
    have : (1 : ℚ) < (routeData.length : ℚ) := by exact_mod_cast hN
    linarith
  simp [progressPercent, JSNumber.div, JSNumber.mul, hb]

theorem ratio_bounds {routeData : List Sample} (hN : 1 < routeData.length) {c d : Int}
    (hc : 0 ≤ c) (hcd : c ≤ d) (hd : d ≤ (routeData.length : Int) - 1) :
    0 ≤ (c : ℚ) / ((routeData.length : ℚ) - 1) ∧
      (c : ℚ) / ((routeData.length : ℚ) - 1) ≤ (d : ℚ) / ((routeData.length : ℚ) - 1) ∧
      (d : ℚ) / ((routeData.length : ℚ) - 1) ≤ 1 := by
  have hb : (0 : ℚ) < (routeData.length : ℚ) - 1 := by
    have : (1 : ℚ) < (routeData.length : ℚ) := by exact_mod_cast hN
    linarith
  have hc1 : (0 : ℚ) ≤ (c : ℚ) := by exact_mod_cast hc
  have hcd1 : (c : ℚ) ≤ (d : ℚ) := by exact_mod_cast hcd
  have hd1 : (d : ℚ) ≤ (routeData.length : ℚ) - 1 := by exact_mod_cast hd
  refine ⟨div_nonneg hc1 hb.le, ?_, ?_⟩
  · exact div_le_div_of_nonneg_right hcd1 hb.le
  · rw [div_le_one hb]
    exact hd1

/-! The playback state machine -/

theorem step_keeps_index_in_range {routeData : List Sample} (hne : routeData ≠ [])
    (s : PlaybackState) (c : Command)
    (h : 0 ≤ s.currentIndex ∧ s.currentIndex ≤ (routeData.length : Int) - 1) :
    0 ≤ (step routeData s c).currentIndex ∧
      (step routeData s c).currentIndex ≤ (routeData.length : Int) - 1 := by
  have hlen : 0 < routeData.length := List.length_pos.mpr hne
  obtain ⟨h0, h1⟩ := h
  cases c with
  | play =>
      simp only [step, handlePlay]
      split_ifs <;> (try dsimp only) <;> omega
  | pause => exact ⟨h0, h1⟩
  | reset =>
      simp only [step, handleReset]
      omega
  | setRate r => exact ⟨h0, h1⟩
  | tick =>
      simp only [step, tick, advanceIndex]
      split_ifs <;> (try dsimp only) <;> omega

theorem run_keeps_index_in_range {routeData : List Sample} (hne : routeData ≠ [])
    (cmds : List Command) (s : PlaybackState)
    (h : 0 ≤ s.currentIndex ∧ s.currentIndex ≤ (routeData.length : Int) - 1) :
    0 ≤ (run routeData s cmds).currentIndex ∧
      (run routeData s cmds).currentIndex ≤ (routeData.length : Int) - 1 := by
  induction cmds generalizing s with
  | nil => exact h
  | cons c cs ih =>
      have hs := step_keeps_index_in_range hne s c h
      exact ih (step routeData s c) hs

/-- C1: from any state and for any route, reset gives index 0 and playing false
and keeps the rate. -/
theorem handleReset_spec (routeData : List Sample) (s : PlaybackState) :
    step routeData s Command.reset = handleReset s ∧
      (handleReset s).currentIndex = 0 ∧
      (handleReset s).isPlaying = false ∧
      (handleReset s).simulationSpeed = s.simulationSpeed :=
  ⟨rfl, rfl, rfl, rfl⟩

/-- C2: with the index at most N-1 (in particular on a non-empty route with the
index within 0..N-1), play sets the playing flag, sends the index to 0 when it
was at the last point N-1, keeps it when it was before N-1, and keeps the rate. -/
theorem handlePlay_spec (routeData : List Sample) (s : PlaybackState)
    (h1 : s.currentIndex ≤ (routeData.length : Int) - 1) :
    handlePlay routeData s =
      { currentIndex := if s.currentIndex = (routeData.length : Int) - 1 then 0
          else s.currentIndex,
        isPlaying := true,
        simulationSpeed := s.simulationSpeed } := by
  unfold handlePlay
  by_cases h : s.currentIndex = (routeData.length : Int) - 1
  · simp [h]
  · have hlt : ¬ s.currentIndex ≥ (routeData.length : Int) - 1 := by omega
    simp [h, hlt]

/-- Witness of C2 on the two-point route, with the index at the last point. -/
theorem handlePlay_spec_witness :
    (1 : Int) ≤ (twoPointRoute.length : Int) - 1 ∧
      handlePlay twoPointRoute ⟨1, false, 2000⟩ =
        { currentIndex := if (1 : Int) = (twoPointRoute.length : Int) - 1 then 0 else 1,
          isPlaying := true,
          simulationSpeed := 2000 } :=
  ⟨by decide, handlePlay_spec twoPointRoute ⟨1, false, 2000⟩ (by decide)⟩

/-- C3: on a route of more than one point, a tick in a playing state whose
index is before the last point adds exactly 1 to the index; a tick at the last
point, or in a state that is not playing, keeps the index. -/
theorem tick_spec (routeData : List Sample) (s : PlaybackState)
    (hN : 1 < routeData.length) :
    (s.isPlaying = true → s.currentIndex < (routeData.length : Int) - 1 →
        (tick routeData s).currentIndex = s.currentIndex + 1) ∧
      (s.currentIndex = (routeData.length : Int) - 1 →
        (tick routeData s).currentIndex = s.currentIndex) ∧
      (s.isPlaying = false → (tick routeData s).currentIndex = s.currentIndex) := by
  refine ⟨?_, ?_, ?_⟩
  · intro hp hlt
    have hg : ¬ s.currentIndex ≥ (routeData.length : Int) - 1 := by omega
    simp [tick, intervalScheduled, advanceIndex, hp, hN, hlt, hg]
  · intro heq
    simp [tick, intervalScheduled, advanceIndex, heq]
  · intro hp
    simp [tick, intervalScheduled, hp]

/-- Witness of C3 on the two-point route, from index 0 while playing. -/
theorem tick_spec_witness :
    1 < twoPointRoute.length ∧
      (tick twoPointRoute ⟨0, true, 2000⟩).currentIndex = 0 + 1 :=
  ⟨by decide, (tick_spec twoPointRoute ⟨0, true, 2000⟩ (by decide)).1 rfl (by decide)⟩

/-- C4, refuted as stated: it is not true that a tick that brings a playing
state to the last index clears the playing flag. On the two-point route the
tick from index 0 reaches index 1 with the flag still set. -/
theorem tick_does_not_stop_playing :
    ¬ ∀ (routeData : List Sample) (s : PlaybackState), 1 < routeData.length →
        s.isPlaying = true → s.currentIndex < (routeData.length : Int) - 1 →
        (tick routeData s).currentIndex = (routeData.length : Int) - 1 →
        (tick routeData s).isPlaying = false := by
  intro h
  have h2 := h twoPointRoute ⟨0, true, 2000⟩ (by decide) rfl (by decide) (by decide)
  exact absurd h2 (by decide)

/-- C4, amended: a tick never changes the playing flag or the rate of any
state. When a tick leaves a playing state at the last index N-1, the flag is
still set, no interval is scheduled any more, and a further tick changes
nothing. -/
theorem tick_keeps_playing (routeData : List Sample) (s : PlaybackState)
    (hp : s.isPlaying = true)
    (hmove : (tick routeData s).currentIndex = (routeData.length : Int) - 1) :
    (∀ t : PlaybackState, (tick routeData t).isPlaying = t.isPlaying ∧
        (tick routeData t).simulationSpeed = t.simulationSpeed) ∧
      (tick routeData s).isPlaying = true ∧
      intervalScheduled routeData (tick routeData s) = false ∧
      tick routeData (tick routeData s) = tick routeData s := by
  have hframe : ∀ t : PlaybackState, (tick routeData t).isPlaying = t.isPlaying ∧
      (tick routeData t).simulationSpeed = t.simulationSpeed := by
    intro t
    unfold tick
    split_ifs <;> exact ⟨rfl, rfl⟩
  have hsched : intervalScheduled routeData (tick routeData s) = false := by
    simp [intervalScheduled, hmove]
  refine ⟨hframe, by rw [(hframe s).1, hp], hsched, ?_⟩
  generalize tick routeData s = t at hsched
  unfold tick
  rw [hsched]
  rfl

/-- Witness of amended C4 on the two-point route: the tick from index 0. -/
theorem tick_keeps_playing_witness :
    (tick twoPointRoute ⟨0, true, 2000⟩).currentIndex = (twoPointRoute.length : Int) - 1 ∧
      (tick twoPointRoute ⟨0, true, 2000⟩).isPlaying = true ∧
      intervalScheduled twoPointRoute (tick twoPointRoute ⟨0, true, 2000⟩) = false ∧
      tick twoPointRoute (tick twoPointRoute ⟨0, true, 2000⟩) =
        tick twoPointRoute ⟨0, true, 2000⟩ :=
  ⟨by decide, (tick_keeps_playing twoPointRoute ⟨0, true, 2000⟩ rfl (by decide)).2⟩

/-- The play handler taken by itself would set the playing flag on the empty
route; it has no guard of its own, and the disabled Start button is what keeps
it from being called there. -/
theorem handlePlay_empty_route :
    handlePlay [] initialState = { initialState with isPlaying := true } ∧
      startDisabled [] initialState.currentIndex = true := by
  decide

/-- C5: on the empty route and in the initial state, each of play, pause,
reset, setting the rate to its current value, and a tick leaves the playback
state (index, playing flag, rate) as it is. Play reaches its handler only
through the Start button, which is disabled there (0 ≥ -1); the handlers of
pause, reset and the rate, and the tick, change nothing even when called
directly. -/
theorem empty_route_commands :
    controlStep [] initialState Command.play = initialState ∧
      controlStep [] initialState Command.pause = initialState ∧
      controlStep [] initialState Command.reset = initialState ∧
      controlStep [] initialState (Command.setRate initialState.simulationSpeed) =
        initialState ∧
      controlStep [] initialState Command.tick = initialState ∧
      handlePause initialState = initialState ∧
      handleReset initialState = initialState ∧
      handleSpeedChange initialState.simulationSpeed initialState = initialState ∧
      tick [] initialState = initialState := by
  decide

/-- C6, the code at a one-point route: with index 0 the guard `length > 0`
lets the division 0 / 0 through, and `progress` is the rendering of NaN, not
the number 0 and not the rendering of 0. -/
theorem progress_one_point_is_nan :
    progress 0 onePointRoute = ProgressValue.toFixed1 JSNumber.nan ∧
      progress 0 onePointRoute ≠ ProgressValue.number (JSNumber.finite 0) ∧
      progress 0 onePointRoute ≠ ProgressValue.toFixed1 (JSNumber.finite 0) := by
  have h : progress 0 onePointRoute = ProgressValue.toFixed1 JSNumber.nan := by
    simp [progress, progressPercent, onePointRoute, JSNumber.div, JSNumber.mul]
  rw [h]
  exact ⟨rfl, by simp, by simp⟩

/-- C7: on a route of N > 1 points and for indices 0 ≤ c ≤ d ≤ N-1, the number
that `progress` renders is the double evaluation of c / (N-1) * 100, within
relative error 2u + u² of the exact quotient; it lies between 0 and 100, does
not decrease from c to d, is exactly 0 at index 0 and exactly 100 at N-1. -/
theorem progress_spec (routeData : List Sample) (c d : Int)
    (hN : 1 < routeData.length) (hc : 0 ≤ c) (hcd : c ≤ d)
    (hd : d ≤ (routeData.length : Int) - 1) :
    ∃ p q : ℚ,
      progress c routeData = ProgressValue.toFixed1 (JSNumber.finite p) ∧
      progressPercent c routeData = JSNumber.finite p ∧
      progressPercent d routeData = JSNumber.finite q ∧
      p = roundDouble (roundDouble ((c : ℚ) / ((routeData.length : ℚ) - 1)) * 100) ∧
      |p - (c : ℚ) / ((routeData.length : ℚ) - 1) * 100| ≤
        (c : ℚ) / ((routeData.length : ℚ) - 1) * 100 * (2 * unitRoundoff + unitRoundoff ^ 2) ∧
      0 ≤ p ∧ p ≤ q ∧ q ≤ 100 ∧
      progressPercent 0 routeData = JSNumber.finite 0 ∧
      progressPercent ((routeData.length : Int) - 1) routeData = JSNumber.finite 100 := by
  obtain ⟨hr0, hrcd, hr1⟩ := ratio_bounds hN hc hcd hd
  have hb : (routeData.length : ℚ) - 1 ≠ 0 := by
    have : (1 : ℚ) < (routeData.length : ℚ) := by exact_mod_cast hN
    linarith
  refine ⟨_, _, ?_, progressPercent_eq hN c, progressPercent_eq hN d, rfl,
    percent_error hr0, percent_nonneg hr0, percent_mono hr0 hrcd, ?_, ?_, ?_⟩
  · have hpos : routeData.length > 0 := by omega
    simp only [progress, hpos, if_true, progressPercent_eq hN c]
  · calc _ ≤ roundDouble (roundDouble 1 * 100) := percent_mono (le_trans hr0 hrcd) hr1
      _ = 100 := percent_one
  · rw [progressPercent_eq hN 0]
    simp [roundDouble_zero]
  · rw [progressPercent_eq hN]
    push_cast
    rw [div_self hb, percent_one]

/-- Witness of C7 on the two-point route, from index 0 to index 1. -/
theorem progress_spec_witness :
    1 < twoPointRoute.length ∧ (0 : Int) ≤ 0 ∧ (0 : Int) ≤ 1 ∧
      (1 : Int) ≤ (twoPointRoute.length : Int) - 1 ∧
      ∃ p q : ℚ,
        progress 0 twoPointRoute = ProgressValue.toFixed1 (JSNumber.finite p) ∧
        progressPercent 0 twoPointRoute = JSNumber.finite p ∧
        progressPercent 1 twoPointRoute = JSNumber.finite q ∧
        p = roundDouble (roundDouble (((0 : Int) : ℚ) / ((twoPointRoute.length : ℚ) - 1)) * 100) ∧
        |p - ((0 : Int) : ℚ) / ((twoPointRoute.length : ℚ) - 1) * 100| ≤
          ((0 : Int) : ℚ) / ((twoPointRoute.length : ℚ) - 1) * 100 *
            (2 * unitRoundoff + unitRoundoff ^ 2) ∧
        0 ≤ p ∧ p ≤ q ∧ q ≤ 100 ∧
        progressPercent 0 twoPointRoute = JSNumber.finite 0 ∧
        progressPercent ((twoPointRoute.length : Int) - 1) twoPointRoute = JSNumber.finite 100 :=
  ⟨by decide, by decide, by decide, by decide,
    progress_spec twoPointRoute 0 1 (by decide) (by decide) (by decide) (by decide)⟩

/-- C8: on a non-empty route, every state reached from the initial state by a
finite sequence of play, pause, reset, setRate and tick has its index within
0..N-1. -/
theorem index_in_range (routeData : List Sample) (cmds : List Command)
    (hne : routeData ≠ []) :
    0 ≤ (run routeData initialState cmds).currentIndex ∧
      (run routeData initialState cmds).currentIndex ≤ (routeData.length : Int) - 1 := by
  have hlen : 0 < routeData.length := List.length_pos.mpr hne
  apply run_keeps_index_in_range hne
  simp only [initialState]
  omega

/-- Witness of C8 on the two-point route. -/
theorem index_in_range_witness :
    twoPointRoute ≠ [] ∧
      0 ≤ (run twoPointRoute initialState
        [Command.play, Command.tick, Command.tick, Command.setRate 500,
          Command.play, Command.pause]).currentIndex ∧
      (run twoPointRoute initialState
        [Command.play, Command.tick, Command.tick, Command.setRate 500,
          Command.play, Command.pause]).currentIndex ≤ (twoPointRoute.length : Int) - 1 :=
  ⟨by decide, index_in_range twoPointRoute _ (by decide)⟩

/-- C9: pause clears the playing flag and keeps index and rate, for any route;
a state that is not playing is returned as it is. -/
theorem handlePause_spec (routeData : List Sample) (s : PlaybackState)
    (i r : Int) :
    step routeData s Command.pause = handlePause s ∧
      (handlePause s).isPlaying = false ∧
      (handlePause s).currentIndex = s.currentIndex ∧
      (handlePause s).simulationSpeed = s.simulationSpeed ∧
      handlePause ⟨i, false, r⟩ = ⟨i, false, r⟩ :=
  ⟨rfl, rfl, rfl, rfl, rfl⟩

/-- C10: setting the rate to any integer r, also outside 500..3000 or not
positive, gives rate r and keeps index and playing flag. -/
theorem handleSpeedChange_spec (routeData : List Sample) (s : PlaybackState) (r : Int) :
    step routeData s (Command.setRate r) = handleSpeedChange r s ∧
      (handleSpeedChange r s).simulationSpeed = r ∧
      (handleSpeedChange r s).currentIndex = s.currentIndex ∧
      (handleSpeedChange r s).isPlaying = s.isPlaying :=
  ⟨rfl, rfl, rfl, rfl⟩

end VehicleTracker
